import Mathlib

/-!
Verification development for the karaoke-video generator's subtitle timeline
synthesis and rendering-coordination logic.

Times (Python floats) are embedded as rationals `ℚ`; Python's `int()`
truncation, `//` floor division and `%` modulus are modelled explicitly.
ASS text runs such as `{\kfN}word` are represented structurally by `Seg`
(one constructor per kind of run) instead of flat strings, so that the
per-run highlight durations are directly accessible.

Sources embedded here (file and function names follow the repository):
 - src/modules/subtitle_processing/create_ass_file.py
     (format_time, write_scrolling_lyrics_events, extend_last_event,
      format_chunk_text)
 - src/modules/video_processing/main.py
     (parse_ass_time, parse_countdown_times, generate_karaoke_video)
 - src/modules/video_processing/process.py (process_karaoke_video)
 - src/modules/lyrics_processing/extract_lyrics/main.py
     (filter_lyrics, filter_early_vocals, filter_short_verses)
 - src/interface/components/lyrics_timing_editor.py
     (parse_ass_time, save_timing_changes)
-/

/-- Python `int(q)`: truncation toward zero. -/
def pytrunc (q : ℚ) : ℤ := if 0 ≤ q then ⌊q⌋ else ⌈q⌉

/-- Python `a // b`: floor division (result as a float, here a rational). -/
def pyfloordiv (a b : ℚ) : ℚ := (⌊a / b⌋ : ℤ)

/-- Python `a % b` for `b ≠ 0`: `a - b * floor(a / b)`. -/
def pymod (a b : ℚ) : ℚ := a - b * ⌊a / b⌋

/-- Python `round(q)` for a real argument: round half to even. -/
def pyround (q : ℚ) : ℤ :=
  if q - ⌊q⌋ < 1/2 then ⌊q⌋
  else if 1/2 < q - ⌊q⌋ then ⌊q⌋ + 1
  else if ⌊q⌋ % 2 = 0 then ⌊q⌋ else ⌊q⌋ + 1

/-- Character-list version of `startsWith`: does the second list begin with
the first? -/
def startsWithChars : List Char → List Char → Bool
  | [], _ => true
  | _ :: _, [] => false
  | c :: cs, x :: xs => c = x && startsWithChars cs xs

/-- Substring search over character lists: does `pat` occur contiguously in
the list? -/
def containsChars (pat : List Char) : List Char → Bool
  | [] => startsWithChars pat []
  | c :: rest => startsWithChars pat (c :: rest) || containsChars pat rest

/-- Python `pat in s` on strings (substring containment). -/
def strContainsSub (s pat : String) : Bool := containsChars pat.data s.data

/-- One transcribed word record `{word, start, end}` (optionally with a
`raw` display form, looked up by the writer as `word.get('raw', word['word'])`).
`stop` embeds the Python key `end` (a Lean keyword). -/
structure Word where
  word : String
  raw : Option String
  start : ℚ
  stop : ℚ
  deriving DecidableEq

/-- Display text of a word: `word.get('raw', word['word'])`. -/
def wordText (w : Word) : String := w.raw.getD w.word

/-- One verse record `{start, end, words}`. -/
structure Verse where
  start : ℚ
  stop : ℚ
  words : List Word
  deriving DecidableEq

/-- The raw text of a verse, `' '.join(...)` over the words' display forms
(as built in `extend_last_event`). -/
def verseText (v : Verse) : String :=
  String.intercalate " " (v.words.map wordText)

/-- One styled run of an ASS dialogue text.  `loader kf` is the
`{\kfKF}➤➤➤➤` four-arrow run, `word kf txt` one `{\kfKF}txt` karaoke run,
`plain txt` an untagged run (MELODI, the thank-you text). -/
inductive Seg where
  | loader (kf : ℤ)
  | word (kf : ℤ) (txt : String)
  | plain (txt : String)
  deriving DecidableEq

/-- One `Dialogue:` line as produced by `write_dialogue`.  `fade` is the
`\fad(a,b)` pair; `lines` are the `\N`-separated text lines, each a list of
runs; `position` is the `position` argument passed to `write_dialogue`
(`"center"` and `"lower_center"` translate to an `\an` override, anything
else is ignored by it). -/
structure Dialogue where
  start : ℚ
  stop : ℚ
  style : String
  position : Option String
  fade : ℕ × ℕ
  lines : List (List Seg)
  deriving DecidableEq

/-- Gap threshold `loader_threshold = 5.0` seconds
(create_ass_file.py:397). -/
def loaderThreshold : ℚ := 5

/-- The `{\kfN}txt` run for one word: `N = int((word['end'] - word['start']) * 100)`
(create_ass_file.py:445-447, 453-455, 494-496). -/
def wordSeg (w : Word) : Seg :=
  .word (pytrunc ((w.stop - w.start) * 100)) (wordText w)

/-- Embedding of `format_chunk_text` (create_ass_file.py:349-377): an
optional `{\kf200}➤➤➤➤` loader run followed by one `{\kf..}` run per word
(the surrounding `\fad(300,0)` is the dialogue-level fade). -/
def format_chunk_text (words : List Word) (add_loader : Bool) : List Seg :=
  (if add_loader then [Seg.loader 200] else []) ++ words.map wordSeg

/-- One step of the Event Compositor's scan, as data: a MELODI filler, a
merged two-verse event, or a single-verse event. -/
inductive EventPlan where
  | filler (p v : Verse)
  | merged (addLoader : Bool) (v w : Verse)
  | single (addLoader nextFar : Bool) (v : Verse)
  deriving DecidableEq

/-- Loader flag of a plan step (false for fillers). -/
def planLoader : EventPlan → Bool
  | .filler _ _ => false
  | .merged l _ _ => l
  | .single l _ _ => l

/-- The MELODI filler emitted before verse `v` when the gap since `p` is at
least the threshold (create_ass_file.py:401-413): centered, white, spanning
`[p.end + 0.3, v.start - 0.3]` with fade `(300,300)`. -/
def melodiDialogue (p v : Verse) : Dialogue :=
  { start := p.stop + 3/10
    stop := v.start - 3/10
    style := "Line2"
    position := some "center"
    fade := (300, 300)
    lines := [[.plain "MELODI"]] }

/-- The merged two-verse event (create_ass_file.py:415-465): upper line from
`v` (plain), lower line from `w` (karaoke), style Line2, start pulled 2s
earlier (floored at 0) when a loader is prepended, end at `w.end`. -/
def combinedDialogue (addLoader : Bool) (v w : Verse) : Dialogue :=
  { start := if addLoader then max 0 (v.start - 2) else v.start
    stop := w.stop
    style := "Line2"
    position := none
    fade := (300, 0)
    lines := [(if addLoader then [Seg.loader 200] else []) ++ v.words.map wordSeg,
              w.words.map wordSeg] }

/-- The single-verse event (create_ass_file.py:466-504): one line, style
Line2, position `lower_center` when the next verse is far away or absent,
start pulled 2s earlier (floored at 0) when a loader is prepended. -/
def singleDialogue (addLoader nextFar : Bool) (v : Verse) : Dialogue :=
  { start := if addLoader then max 0 (v.start - 2) else v.start
    stop := v.stop
    style := "Line2"
    position := some (if nextFar then "lower_center" else "Line2")
    fade := (300, 0)
    lines := [(if addLoader then [Seg.loader 200] else []) ++ v.words.map wordSeg] }

/-- Renders one plan step to its `Dialogue` line. -/
def renderPlan : EventPlan → Dialogue
  | .filler p v => melodiDialogue p v
  | .merged l v w => combinedDialogue l v w
  | .single l f v => singleDialogue l f v

/-- The MELODI filler check run at the top of each loop iteration
(create_ass_file.py:401-413): for `i > 0` (`prev? = some p`), emit a filler
when `verses[i].start - verses[i-1].end >= loader_threshold`. -/
def fillerEvents (prev? : Option Verse) (v : Verse) : List EventPlan :=
  match prev? with
  | none => []
  | some p => if loaderThreshold ≤ v.start - p.stop then [.filler p v] else []

/-- The loader decision (create_ass_file.py:421-427, 473-478): always on for
`i == 0`, otherwise on when `leadStart - verses[i-1].end >= loader_threshold`
(`leadStart` is `verses[i+1].start` in the merged branch and
`verses[i].start` in the single branch). -/
def addLoaderFlag (prev? : Option Verse) (leadStart : ℚ) : Bool :=
  match prev? with
  | none => true
  | some p => decide (loaderThreshold ≤ leadStart - p.stop)

/-- The `next_verse_far` test of the single branch (create_ass_file.py:471):
true when no verse follows or the following verse starts at least the
threshold after this one ends. -/
def nextFarFlag (v : Verse) (rest : List Verse) : Bool :=
  match rest with
  | [] => true
  | w :: _ => decide (loaderThreshold ≤ w.start - v.stop)

/-- The Event Compositor's scan (`while i < len(verses)` loop of
`write_scrolling_lyrics_events`, create_ass_file.py:399-504), as plan steps.
`prev?` is `verses[i-1]` (`none` at `i == 0`).  At each step: emit the
gap filler if due; then if a next verse exists within the threshold, merge
the two (`i += 2`, the merged pair's second verse becomes `prev`), else emit
the verse alone (`i += 1`). -/
def scrollPlan : Option Verse → List Verse → List EventPlan
  | _, [] => []
  | prev?, [v] =>
    fillerEvents prev? v ++ [.single (addLoaderFlag prev? v.start) (nextFarFlag v []) v]
  | prev?, v :: w :: rest2 =>
    fillerEvents prev? v ++
      if w.start - v.stop < loaderThreshold then
        .merged (addLoaderFlag prev? w.start) v w :: scrollPlan (some w) rest2
      else
        .single (addLoaderFlag prev? v.start) (nextFarFlag v (w :: rest2)) v ::
          scrollPlan (some v) (w :: rest2)
termination_by structural _ l => l

/-- Embedding of `write_scrolling_lyrics_events` (create_ass_file.py:379-504):
the dialogue lines written for the verse sequence. -/
def write_scrolling_lyrics_events (verses : List Verse) : List Dialogue :=
  (scrollPlan none verses).map renderPlan

/-- The closing "Teşekkür Ederiz" dialogue of `extend_last_event`. -/
def thanksDialogue (start stop : ℚ) : Dialogue :=
  { start := start
    stop := stop
    style := "Line1"
    position := none
    fade := (300, 0)
    lines := [[.plain "Teşekkür Ederiz"]] }

/-- Embedding of `extend_last_event` (create_ass_file.py:237-281): with no
verses, one thank-you event over the whole audio; if the last verse's text
contains the sentinel `"Altyazı M .K."`, a thank-you event from that verse's
start to the end of the audio; otherwise a thank-you event from the last
verse's end to the end of the audio, written only when `end < audio_duration`. -/
def extend_last_event (verses : List Verse) (audio_duration : ℚ) : List Dialogue :=
  match verses.getLast? with
  | none => [thanksDialogue 0 audio_duration]
  | some last_verse =>
    if strContainsSub (verseText last_verse) "Altyazı M .K." then
      [thanksDialogue last_verse.start audio_duration]
    else if last_verse.stop < audio_duration then
      [thanksDialogue last_verse.stop audio_duration]
    else []

/-- Embedding of `parse_countdown_times` (video_processing/main.py:27-54), at
the level of the document's parsed `Dialogue` lines (the Python code scans the
text file for lines starting with `Dialogue:` and reads fields 1 and 2): the
end of the first Dialogue and the start of the second are returned only when
both exist and `second_start > first_end`. -/
def parse_countdown_times (dialogues : List Dialogue) : Option (ℚ × ℚ) :=
  match dialogues with
  | d1 :: d2 :: _ => if d2.start > d1.stop then some (d1.stop, d2.start) else none
  | _ => none

/-- Denylist of `filter_lyrics` (extract_lyrics/main.py:77). -/
def unwanted_phrases : List String :=
  ["abone ol", "altyazı", "m.k.", "yorum yap", "beğen butonuna", "tıklamayı unutmayın"]

/-- The verse text built by the filters: `' '.join(word['word'])`, lower-cased
(`.lower()` embedded as `String.toLower`; only its purity matters here). -/
def verseFullTextLower (v : Verse) : String :=
  (String.intercalate " " (v.words.map (fun w => w.word))).toLower

/-- Keep-predicate of `filter_lyrics` (extract_lyrics/main.py:67-96): drop a
verse whose lower-cased text contains any unwanted phrase. -/
def lyricsKeep (v : Verse) : Bool :=
  !(unwanted_phrases.any fun phrase => strContainsSub (verseFullTextLower v) phrase)

/-- Embedding of `filter_lyrics` (extract_lyrics/main.py:67-96). -/
def filter_lyrics (verses : List Verse) : List Verse := verses.filter lyricsKeep

/-- Interjection denylist of `filter_early_vocals` (extract_lyrics/main.py:135). -/
def noise_patterns : List String :=
  ["ahh", "hah", "hayy", "hmm", "oh", "huh", "yeah", "woo", "woah", "hey", "heya", "oohh"]

/-- Keep-predicate of `filter_early_vocals` (extract_lyrics/main.py:98-144):
a verse starting before `threshold_seconds` is dropped when it has fewer than
`min_word_count` words, or starts before 10s with duration under 2s, or starts
before 10s with noise-like text. -/
def earlyKeep (threshold_seconds : ℚ) (min_word_count : ℕ) (v : Verse) : Bool :=
  if v.start < threshold_seconds then
    if v.words.length < min_word_count then false
    else if v.start < 10 ∧ v.stop - v.start < 2 then false
    else if (noise_patterns.any fun pat => strContainsSub (verseFullTextLower v) pat)
        ∧ v.start < 10 then false
    else true
  else true

/-- Embedding of `filter_early_vocals` (extract_lyrics/main.py:98-144) at its
default arguments (`threshold_seconds=15.0`, `min_word_count=4`). -/
def filter_early_vocals (verses : List Verse) : List Verse :=
  verses.filter (earlyKeep 15 4)

/-- Keep-predicate of `filter_short_verses` (extract_lyrics/main.py:146-180):
drop a verse shorter than `min_duration` or with fewer than `min_word_count`
words. -/
def shortKeep (min_duration : ℚ) (min_word_count : ℕ) (v : Verse) : Bool :=
  if v.stop - v.start < min_duration then false
  else if v.words.length < min_word_count then false
  else true

/-- Embedding of `filter_short_verses` (extract_lyrics/main.py:146-180) at its
default arguments (`min_duration=0.5`, `min_word_count=2`). -/
def filter_short_verses (verses : List Verse) : List Verse :=
  verses.filter (shortKeep (1/2) 2)

/-- The Segmenter/Filterer pipeline as applied in `_extract_lyrics_with_timing`
(extract_lyrics/main.py:288-298): unwanted-phrase filter, then early-vocal
filter, then short-verse filter. -/
def filterPipeline (verses : List Verse) : List Verse :=
  filter_short_verses (filter_early_vocals (filter_lyrics verses))

/-- One edited row of the Timing Editor's table (columns `Sıra`,
`Başlangıç (sn)`, `Bitiş (sn)`, `Sözler`), already parsed to numbers as
`save_timing_changes` does with `int(...)` / `float(...)`. -/
structure Row where
  sira : ℤ
  start : ℚ
  stop : ℚ
  text : String
  deriving DecidableEq

/-- Python `str.split()` with no argument: split on whitespace runs, dropping
empty pieces. -/
def pySplitWs (s : String) : List String :=
  (s.split fun c => c.isWhitespace).filter (fun piece => piece ≠ "")

/-- The verse record `save_timing_changes` produces for one table row
(lyrics_timing_editor.py:298-327): when `Sıra - 1` indexes an existing verse
of the JSON store, that verse is copied with only `start`/`end` replaced
(its word list is untouched); otherwise a fallback verse is synthesized from
the row's text, every word inheriting the row's start/end. -/
def updatedVerseForRow (lyrics : List Verse) (row : Row) : Verse :=
  let sira_idx := row.sira - 1
  if h : 0 ≤ sira_idx ∧ sira_idx.toNat < lyrics.length then
    let original_verse := lyrics.get ⟨sira_idx.toNat, h.2⟩
    { original_verse with start := row.start, stop := row.stop }
  else
    { start := row.start
      stop := row.stop
      words := (pySplitWs row.text).map fun piece =>
        { word := piece, raw := none, start := row.start, stop := row.stop } }

/-- The `updated_lyrics` list built by `save_timing_changes`
(lyrics_timing_editor.py:294-330): one verse per table row, in row order. -/
def save_timing_changes_updated (rows : List Row) (lyrics : List Verse) : List Verse :=
  rows.map (updatedVerseForRow lyrics)

/-- The two JSON lyric stores of the working directory. -/
structure LyricStores where
  raw : List Verse
  modified : List Verse
  deriving DecidableEq

/-- Embedding of the JSON-store effect of `save_timing_changes`
(lyrics_timing_editor.py:226-353): with no working directory or an empty
table, the stores are untouched; with a falsy (empty) `lyrics_json` the JSON
update is skipped; otherwise both `raw_lyrics.json` and
`modified_lyrics.json` are rewritten with the same `updated_lyrics` list.
(The ASS-file update that precedes this step touches neither store.) -/
def save_timing_changes (workingDirOk : Bool) (rows : List Row)
    (lyrics : List Verse) (stores : LyricStores) : LyricStores :=
  if ¬ workingDirOk ∨ rows.isEmpty then stores
  else if lyrics.isEmpty then stores
  else
    { raw := save_timing_changes_updated rows lyrics
      modified := save_timing_changes_updated rows lyrics }

/-- Decimal digit character (only ever applied to values below 10). -/
def digitChar : ℕ → Char
  | 0 => '0'
  | 1 => '1'
  | 2 => '2'
  | 3 => '3'
  | 4 => '4'
  | 5 => '5'
  | 6 => '6'
  | 7 => '7'
  | 8 => '8'
  | 9 => '9'
  | _ => '0'

/-- Fuel-driven decimal rendering of a natural number (the fuel only makes
the recursion structural; `natChars` supplies enough of it). -/
def natCharsAux : ℕ → ℕ → List Char
  | 0, _ => []
  | fuel + 1, n =>
    if n < 10 then [digitChar n]
    else natCharsAux fuel (n / 10) ++ [digitChar (n % 10)]

/-- Python `str(n)` for a natural number. -/
def natChars (n : ℕ) : List Char := natCharsAux (n + 1) n

/-- Python `str(n)` for an integer. -/
def intChars (n : ℤ) : List Char :=
  if n < 0 then '-' :: natChars n.natAbs else natChars n.natAbs

/-- Python `f"{n:02d}"`: zero-pad the rendering to width 2. -/
def pad2 (n : ℤ) : List Char :=
  if (intChars n).length < 2 then '0' :: intChars n else intChars n

/-- Embedding of `format_time` (create_ass_file.py:198-213, the second,
effective definition): `H:MM:SS.CC` with `hours = int(s // 3600)`,
`minutes = int((s % 3600) // 60)`, `seconds_int = int(s % 60)` and
`centiseconds = int((s % 1) * 100)`. -/
def format_time (seconds : ℚ) : String :=
  let hours := pytrunc (pyfloordiv seconds 3600)
  let minutes := pytrunc (pyfloordiv (pymod seconds 3600) 60)
  let seconds_int := pytrunc (pymod seconds 60)
  let centiseconds := pytrunc (pymod seconds 1 * 100)
  ⟨intChars hours ++ ':' :: pad2 minutes ++ ':' :: pad2 seconds_int
      ++ '.' :: pad2 centiseconds⟩

/-- Python `str.split(c)` for a one-character separator, over the character
list: always returns at least one (possibly empty) piece. -/
def splitOnChar (c : Char) : List Char → List (List Char)
  | [] => [[]]
  | x :: xs =>
    if x = c then [] :: splitOnChar c xs
    else
      match splitOnChar c xs with
      | [] => [[x]]
      | piece :: pieces => (x :: piece) :: pieces

/-- Numeric value of a decimal digit character. -/
def charDigitVal (c : Char) : ℕ := c.toNat - 48

/-- Value of a digit string read left to right. -/
def parseDigitsVal (l : List Char) : ℕ :=
  l.foldl (fun acc c => 10 * acc + charDigitVal c) 0

/-- Parse a non-empty all-digit character list as a natural number. -/
def parseNatChars (l : List Char) : Option ℕ :=
  if l ≠ [] ∧ l.all Char.isDigit then some (parseDigitsVal l) else none

/-- Python `float(text)` restricted to plain decimal literals
`[-]digits[.digits]` (the forms the codec produces; the exotic inputs
`float` also accepts — exponents, `inf`, leading dots — are not modelled,
they only matter to inputs no component generates). `none` models the
`ValueError` that `float` raises otherwise. -/
def parseFloatChars (l : List Char) : Option ℚ :=
  let sign : ℚ := if l.head? = some '-' then -1 else 1
  let body := if l.head? = some '-' then l.tail else l
  match splitOnChar '.' body with
  | [ip] => (parseNatChars ip).map fun n => sign * n
  | [ip, fp] =>
    match parseNatChars ip, parseNatChars fp with
    | some i, some f => some (sign * ((i : ℚ) + (f : ℚ) / 10 ^ fp.length))
    | _, _ => none
  | _ => none

/-- Python `int(text)` on decimal literals; `none` models the `ValueError`. -/
def parseIntChars (l : List Char) : Option ℤ :=
  let sign : ℤ := if l.head? = some '-' then -1 else 1
  let body := if l.head? = some '-' then l.tail else l
  (parseNatChars body).map fun n => sign * n

/-- Python `str.strip()`: drop whitespace from both ends. -/
def pyStrip (l : List Char) : List Char :=
  ((l.dropWhile Char.isWhitespace).reverse.dropWhile Char.isWhitespace).reverse

/-- The fallible body of `parse_ass_time` (video_processing/main.py:12-25):
strip, split on `:`, and when exactly three parts result, convert each with
`float(..)`; `none` covers both the fall-through (`len(parts) != 3`) and a
`float` conversion error. -/
def parse_ass_time_core (time_str : String) : Option ℚ :=
  match splitOnChar ':' (pyStrip time_str.data) with
  | [hs, ms, ss] =>
    match parseFloatChars hs, parseFloatChars ms, parseFloatChars ss with
    | some hours, some minutes, some seconds =>
      some (hours * 3600 + minutes * 60 + seconds)
    | _, _, _ => none
  | _ => none

/-- Embedding of `parse_ass_time` (video_processing/main.py:12-25): the
try/except wrapper that logs and returns `0.0` whenever the body does not
return a value. -/
def parse_ass_time (time_str : String) : ℚ :=
  (parse_ass_time_core time_str).getD 0

/-- The fallible body of the Timing Editor's `parse_ass_time`
(lyrics_timing_editor.py:14-29): `h, m, s = time_str.split(':')` (raises
unless exactly three parts), then `int(h) * 3600 + int(m) * 60 + float(s)`. -/
def parse_ass_time_editor_core (time_str : String) : Option ℚ :=
  match splitOnChar ':' time_str.data with
  | [hs, ms, ss] =>
    match parseIntChars hs, parseIntChars ms, parseFloatChars ss with
    | some h, some m, some s => some ((h : ℚ) * 3600 + (m : ℚ) * 60 + s)
    | _, _, _ => none
  | _ => none

/-- The Timing Editor's `parse_ass_time` with its try/except wrapper
(lyrics_timing_editor.py:14-29). -/
def parse_ass_time_editor (time_str : String) : ℚ :=
  (parse_ass_time_editor_core time_str).getD 0

/-- Modelled from the spec: the file-system and process environment of one
render.  `validate_file`, `extract_audio_duration` (from
modules/video_processing/utilities.py) and `load_json` (from
modules/utilities.py) are not under src/; per the spec they report
missing/unreadable referenced media and an unextractable audio duration,
modelled here as validity flags and an optional duration.  `assDialogues`
holds the parsed Dialogue lines of the written subtitle file;
`countdownAsset` the result of `select_countdown_video`; `ffmpegSucceeds`
whether the encoder subprocess exits with status 0. -/
structure RenderEnv where
  audioValid : Bool
  assValid : Bool
  videoEffectValid : Bool
  backgroundRestValid : Bool
  countdownFileValid : Bool
  logoValid : Bool
  audioDuration : Option ℚ
  assDialogues : List Dialogue
  gpuAvailable : Bool
  countdownAsset : Option String
  ffmpegSucceeds : Bool
  deriving DecidableEq

/-- Result of one `generate_karaoke_video` call: the returned value
(`None` on any failure) and whether the encoder subprocess was started. -/
structure RenderOutcome where
  output : Option String
  encoderInvoked : Bool
  deriving DecidableEq

/-- Validations performed after the input list is assembled
(video_processing/main.py:177-236): countdown video (when present), then the
logo, then the ffmpeg run — `None` on a non-zero encoder exit
(main.py:262-271). -/
def generateLateChecks (env : RenderEnv) (countdown_video2 : Option String)
    (output_path : String) : RenderOutcome :=
  if countdown_video2.isSome ∧ env.countdownFileValid = false then ⟨none, false⟩
  else if env.logoValid = false then ⟨none, false⟩
  else if env.ffmpegSucceeds then ⟨some output_path, true⟩ else ⟨none, true⟩

/-- Embedding of `generate_karaoke_video` (video_processing/main.py:81-271):
validate audio and subtitle files; parse the countdown window from the
subtitle document (dropping the countdown overlay and the two-background
split when absent, and the overlay when the window is under 2 seconds,
selecting an asset otherwise); abort when the audio duration cannot be
extracted; validate the background inputs, the countdown video and the logo;
then run the encoder.  Every failure returns `None` — no exception is
raised. -/
def generate_karaoke_video (env : RenderEnv)
    (video_effect background_rest countdown_video : Option String)
    (output_path : String) : RenderOutcome :=
  if env.audioValid = false then ⟨none, false⟩
  else if env.assValid = false then ⟨none, false⟩
  else
    let times := parse_countdown_times env.assDialogues
    let countdown_video2 : Option String :=
      match times with
      | none => none
      | some (first_end, second_start) =>
        if second_start - first_end < 2 then none
        else match countdown_video with
          | none => env.countdownAsset
          | some c => some c
    let background_rest2 := match times with | none => none | some _ => background_rest
    match env.audioDuration with
    | none => ⟨none, false⟩
    | some _ =>
      if background_rest2.isSome then
        if env.videoEffectValid = false then ⟨none, false⟩
        else if env.backgroundRestValid = false then ⟨none, false⟩
        else generateLateChecks env countdown_video2 output_path
      else if video_effect.isSome ∧ env.videoEffectValid = false then ⟨none, false⟩
      else generateLateChecks env countdown_video2 output_path

/-- Embedding of `process_karaoke_video` (video_processing/process.py:20-81):
a metadata-loading failure raises (`Except.error`); otherwise
`generate_karaoke_video` is called with the working directory's audio and
subtitle files — and its return value is discarded — before the planned
output path is returned (process.py:64-77). -/
def process_karaoke_video (env : RenderEnv) (metadataOk : Bool)
    (effect_path : Option String) (relative_output : String) : Except String String :=
  if metadataOk = false then Except.error "metadata"
  else
    let _ := generate_karaoke_video env effect_path
      (some "/app/effects/background.mp4") none relative_output
    Except.ok relative_output

/-- The highlight-duration tags of the word runs of one rendered line, in
order (loader and plain runs carry no word tag). -/
def lineKfTags (segs : List Seg) : List ℤ :=
  segs.filterMap fun s => match s with | .word k _ => some k | _ => none

/-- Whether a plan step displays the given verse (fillers display no verse;
a merged step displays its two verses, a single step its one verse). -/
def planCarries (e : EventPlan) (x : Verse) : Bool :=
  match e with
  | .filler _ _ => false
  | .merged _ a b => x = a ∨ x = b
  | .single _ _ a => x = a

theorem countdown_window_iff (dialogues : List Dialogue) (fe ss : ℚ) :
    parse_countdown_times dialogues = some (fe, ss) ↔
      ∃ d1 d2 rest, dialogues = d1 :: d2 :: rest ∧ d1.stop < d2.start ∧
        fe = d1.stop ∧ ss = d2.start := by
  match dialogues with
  | [] => simp [parse_countdown_times]
  | [d] => simp [parse_countdown_times]
  | d1 :: d2 :: rest =>
    simp only [parse_countdown_times]
    split_ifs with h
    · constructor
      · rintro h2
        exact ⟨d1, d2, rest, rfl, h, by simpa using h2.symm⟩
      · rintro ⟨e1, e2, r, heq, hlt, hfe, hss⟩
        obtain ⟨rfl, rfl, rfl⟩ : d1 = e1 ∧ d2 = e2 ∧ rest = r := by
          simpa using heq
        simp [hfe, hss]
    · constructor
      · rintro ⟨⟩
      · rintro ⟨e1, e2, r, heq, hlt, hfe, hss⟩
        obtain ⟨rfl, rfl, rfl⟩ : d1 = e1 ∧ d2 = e2 ∧ rest = r := by
          simpa using heq
        exact absurd hlt h

/-- C4: `parse_countdown_times` yields a window exactly when the document has
at least two Dialogue lines and the second Dialogue's start strictly exceeds
the first Dialogue's end; first `[0,4]` and second `[4,9]` yield no window,
first `[0,4]` and second `[6,10]` yield `(4,6)`. -/
theorem countdown_window_spec :
    (∀ (dialogues : List Dialogue) (fe ss : ℚ),
        parse_countdown_times dialogues = some (fe, ss) ↔
          ∃ d1 d2 rest, dialogues = d1 :: d2 :: rest ∧ d1.stop < d2.start ∧
            fe = d1.stop ∧ ss = d2.start)
    ∧ parse_countdown_times
        [⟨0, 4, "Line1", none, (0, 0), []⟩, ⟨4, 9, "Line1", none, (0, 0), []⟩] = none
    ∧ parse_countdown_times
        [⟨0, 4, "Line1", none, (0, 0), []⟩, ⟨6, 10, "Line1", none, (0, 0), []⟩] = some (4, 6) :=
  ⟨countdown_window_iff, by decide, by decide⟩

/-- C5: the trailing thank-you event: with no verses a single event over
`[0, audioDuration]`; when the last verse's text contains the sentinel
`"Altyazı M .K."`, an event from that verse's start to the audio's end;
otherwise an event from the last verse's end to the audio's end, skipped
when that gap is zero or negative. -/
theorem trailing_event_spec :
    (∀ dur : ℚ, extend_last_event [] dur = [thanksDialogue 0 dur])
    ∧ (∀ (verses : List Verse) (last_verse : Verse) (dur : ℚ),
        verses.getLast? = some last_verse →
        strContainsSub (verseText last_verse) "Altyazı M .K." = true →
        extend_last_event verses dur = [thanksDialogue last_verse.start dur])
    ∧ (∀ (verses : List Verse) (last_verse : Verse) (dur : ℚ),
        verses.getLast? = some last_verse →
        strContainsSub (verseText last_verse) "Altyazı M .K." = false →
        last_verse.stop < dur →
        extend_last_event verses dur = [thanksDialogue last_verse.stop dur])
    ∧ (∀ (verses : List Verse) (last_verse : Verse) (dur : ℚ),
        verses.getLast? = some last_verse →
        strContainsSub (verseText last_verse) "Altyazı M .K." = false →
        dur ≤ last_verse.stop →
        extend_last_event verses dur = [])
    ∧ extend_last_event [] 120 = [thanksDialogue 0 120]
    ∧ thanksDialogue 0 120 =
        ⟨0, 120, "Line1", none, (300, 0), [[.plain "Teşekkür Ederiz"]]⟩ := by
  refine ⟨fun dur => rfl, ?_, ?_, ?_, rfl, rfl⟩
  · intro verses last_verse dur hlast hsent
    unfold extend_last_event
    rw [hlast]
    simp [hsent]
  · intro verses last_verse dur hlast hsent hlt
    unfold extend_last_event
    rw [hlast]
    simp [hsent, hlt]
  · intro verses last_verse dur hlast hsent hge
    unfold extend_last_event
    rw [hlast]
    simp [hsent, hge, not_lt.mpr hge]

unseal Rat.sub Rat.add Rat.mul Rat.inv in
theorem countdown_window_spec_witness :
    parse_countdown_times
        [⟨0, 4, "Line1", none, (0, 0), []⟩, ⟨6, 10, "Line1", none, (0, 0), []⟩] = some (4, 6) :=
  (countdown_window_spec.1 _ 4 6).mpr
    ⟨⟨0, 4, "Line1", none, (0, 0), []⟩, ⟨6, 10, "Line1", none, (0, 0), []⟩, [],
      rfl, by decide, rfl, rfl⟩

unseal Rat.sub Rat.add Rat.mul Rat.inv in
theorem trailing_event_spec_witness :
    ([(⟨100, 105, [⟨"la", none, 100, 105⟩]⟩ : Verse)].getLast? =
        some ⟨100, 105, [⟨"la", none, 100, 105⟩]⟩
      ∧ strContainsSub (verseText ⟨100, 105, [⟨"la", none, 100, 105⟩]⟩) "Altyazı M .K." = false
      ∧ (105 : ℚ) < 130)
    ∧ extend_last_event [⟨100, 105, [⟨"la", none, 100, 105⟩]⟩] 130 =
        [thanksDialogue 105 130] :=
  ⟨⟨rfl, by decide, by decide⟩,
    trailing_event_spec.2.2.1 [⟨100, 105, [⟨"la", none, 100, 105⟩]⟩]
      ⟨100, 105, [⟨"la", none, 100, 105⟩]⟩ 130 rfl (by decide) (by decide)⟩

/-- C10: on a save with a usable working directory, a non-empty edit table
and a non-empty lyric store, both `raw_lyrics.json` and
`modified_lyrics.json` receive the same `updated_lyrics` list (so the raw
store no longer holds the original transcription), and a row whose `Sıra`
sequence number addresses an existing verse only rewrites that verse's
start/end, leaving its word list intact. -/
theorem save_timing_sync_spec :
    (∀ (rows : List Row) (lyrics : List Verse) (stores : LyricStores),
        rows ≠ [] → lyrics ≠ [] →
        save_timing_changes true rows lyrics stores =
          ⟨save_timing_changes_updated rows lyrics,
            save_timing_changes_updated rows lyrics⟩)
    ∧ (∀ (lyrics : List Verse) (row : Row) (v : Verse),
        0 ≤ row.sira - 1 → lyrics[(row.sira - 1).toNat]? = some v →
        updatedVerseForRow lyrics row = ⟨row.start, row.stop, v.words⟩) := by
  constructor
  · intro rows lyrics stores hrows hlyrics
    have h1 : rows.isEmpty = false := by simpa using hrows
    have h2 : lyrics.isEmpty = false := by simpa using hlyrics
    simp [save_timing_changes, h1, h2]
  · intro lyrics row v hnn hget
    obtain ⟨hlt, hv⟩ := List.getElem?_eq_some.mp hget
    unfold updatedVerseForRow
    rw [dif_pos ⟨hnn, hlt⟩]
    simp only [List.get_eq_getElem, hv]

unseal Rat.sub Rat.add Rat.mul Rat.inv in
theorem save_timing_sync_spec_witness :
    (([⟨1, 7/2, 9/2, "la le"⟩] : List Row) ≠ [] ∧
      ([⟨3, 4, [⟨"la", none, 3, 7/2⟩, ⟨"le", none, 7/2, 4⟩]⟩] : List Verse) ≠ []) ∧
    save_timing_changes true [⟨1, 7/2, 9/2, "la le"⟩]
        [⟨3, 4, [⟨"la", none, 3, 7/2⟩, ⟨"le", none, 7/2, 4⟩]⟩] ⟨[], []⟩ =
      ⟨[⟨7/2, 9/2, [⟨"la", none, 3, 7/2⟩, ⟨"le", none, 7/2, 4⟩]⟩],
        [⟨7/2, 9/2, [⟨"la", none, 3, 7/2⟩, ⟨"le", none, 7/2, 4⟩]⟩]⟩ := by
  refine ⟨⟨by decide, by decide⟩, ?_⟩
  rw [save_timing_sync_spec.1 [⟨1, 7/2, 9/2, "la le"⟩]
    [⟨3, 4, [⟨"la", none, 3, 7/2⟩, ⟨"le", none, 7/2, 4⟩]⟩] ⟨[], []⟩
    (by decide) (by decide)]
  decide

theorem filterPipeline_eq_filter (verses : List Verse) :
    filterPipeline verses = verses.filter fun v =>
      lyricsKeep v && earlyKeep 15 4 v && shortKeep (1/2) 2 v := by
  simp only [filterPipeline, filter_lyrics, filter_early_vocals, filter_short_verses,
    List.filter_filter]
  apply List.filter_congr
  intro v _
  cases lyricsKeep v <;> cases earlyKeep 15 4 v <;> cases shortKeep (1/2) 2 v <;> rfl

/-- C9: the Segmenter/Filterer pipeline (unwanted-phrase filter, then
early-vocal filter, then short-verse filter) is idempotent: applying it to
its own output returns that output unchanged. -/
theorem filter_pipeline_idempotent (verses : List Verse) :
    filterPipeline (filterPipeline verses) = filterPipeline verses := by
  rw [filterPipeline_eq_filter, filterPipeline_eq_filter, List.filter_filter]
  apply List.filter_congr
  intro v _
  cases lyricsKeep v <;> cases earlyKeep 15 4 v <;> cases shortKeep (1/2) 2 v <;> rfl

theorem mem_fillerEvents {e : EventPlan} {prev? : Option Verse} {v : Verse}
    (h : e ∈ fillerEvents prev? v) : ∃ p, prev? = some p ∧ e = .filler p v := by
  cases prev? with
  | none => simp [fillerEvents] at h
  | some p =>
    simp only [fillerEvents] at h
    split_ifs at h with hc
    · simp at h
      exact ⟨p, rfl, h⟩
    · simp at h

theorem merged_gap_lt (prev? : Option Verse) (l : List Verse) :
    ∀ (L : Bool) (v w : Verse), EventPlan.merged L v w ∈ scrollPlan prev? l →
      w.start - v.stop < loaderThreshold := by
  induction prev?, l using scrollPlan.induct with
  | case1 x =>
    intro L v w h
    simp [scrollPlan] at h
  | case2 prev? v0 =>
    intro L v w h
    simp only [scrollPlan] at h
    rcases List.mem_append.mp h with hf | hs
    · obtain ⟨p, -, habs⟩ := mem_fillerEvents hf
      exact absurd habs (by simp)
    · simp at hs
  | case3 prev? v0 w0 rest2 ih1 ih2 =>
    intro L v w h
    simp only [scrollPlan] at h
    rcases List.mem_append.mp h with hf | hs
    · obtain ⟨p, -, habs⟩ := mem_fillerEvents hf
      exact absurd habs (by simp)
    · split_ifs at hs with hgap
      · rcases List.mem_cons.mp hs with he | htail
        · obtain ⟨-, rfl, rfl⟩ : L = addLoaderFlag prev? w0.start ∧ v = v0 ∧ w = w0 := by
            simpa using he
          exact hgap
        · exact ih1 L v w htail
      · rcases List.mem_cons.mp hs with he | htail
        · exact absurd he (by simp)
        · exact ih2 L v w htail

theorem filler_of_gap (prev? : Option Verse) (l : List Verse) :
    ∀ p v : Verse,
      ((∃ a b, l = a ++ p :: v :: b) ∨ (prev? = some p ∧ ∃ b, l = v :: b)) →
      loaderThreshold ≤ v.start - p.stop →
      EventPlan.filler p v ∈ scrollPlan prev? l := by
  induction prev?, l using scrollPlan.induct with
  | case1 x =>
    intro p v h hgap
    rcases h with ⟨a, b, habs⟩ | ⟨-, b, habs⟩
    · exact absurd habs (by simp)
    · exact absurd habs (by simp)
  | case2 prev? v0 =>
    intro p v h hgap
    rcases h with ⟨a, b, habs⟩ | ⟨hprev, b, habs⟩
    · rcases a with _ | ⟨x, a'⟩ <;> simp_all
    · obtain ⟨rfl, -⟩ : v0 = v ∧ [] = b := by simpa using habs
      subst hprev
      simp only [scrollPlan]
      exact List.mem_append_left _ (by simp [fillerEvents, if_pos hgap])
  | case3 prev? v0 w0 rest2 ih1 ih2 =>
    intro p v h hgap
    simp only [scrollPlan]
    rcases h with ⟨a, b, habs⟩ | ⟨hprev, b, habs⟩
    · rcases a with _ | ⟨x, a'⟩
      · obtain ⟨rfl, rfl, rfl⟩ : v0 = p ∧ w0 = v ∧ rest2 = b := by simpa using habs
        rw [if_neg (not_lt.mpr hgap)]
        exact List.mem_append_right _
          (List.mem_cons_of_mem _ (ih2 v0 w0 (Or.inr ⟨rfl, rest2, rfl⟩) hgap))
      · rcases a' with _ | ⟨y, a''⟩
        · obtain ⟨rfl, rfl, rfl⟩ : v0 = x ∧ w0 = p ∧ rest2 = v :: b := by simpa using habs
          split_ifs with hm
          · exact List.mem_append_right _
              (List.mem_cons_of_mem _ (ih1 w0 v (Or.inr ⟨rfl, b, rfl⟩) hgap))
          · exact List.mem_append_right _
              (List.mem_cons_of_mem _ (ih2 w0 v (Or.inl ⟨[], b, rfl⟩) hgap))
        · obtain ⟨rfl, rfl, rfl⟩ : v0 = x ∧ w0 = y ∧ rest2 = a'' ++ p :: v :: b := by
            simpa using habs
          split_ifs with hm
          · exact List.mem_append_right _
              (List.mem_cons_of_mem _ (ih1 p v (Or.inl ⟨a'', b, rfl⟩) hgap))
          · exact List.mem_append_right _
              (List.mem_cons_of_mem _ (ih2 p v (Or.inl ⟨w0 :: a'', b, rfl⟩) hgap))
    · obtain ⟨rfl, -⟩ : v0 = v ∧ w0 :: rest2 = b := by simpa using habs
      subst hprev
      exact List.mem_append_left _ (by simp [fillerEvents, if_pos hgap])

theorem verse_emitted (prev? : Option Verse) (l : List Verse) :
    ∀ x ∈ l, ∃ e ∈ scrollPlan prev? l, planCarries e x = true := by
  induction prev?, l using scrollPlan.induct with
  | case1 x => simp
  | case2 prev? v0 =>
    intro x hx
    obtain rfl : x = v0 := by simpa using hx
    exact ⟨.single (addLoaderFlag prev? x.start) (nextFarFlag x []) x,
      by simp [scrollPlan], by simp [planCarries]⟩
  | case3 prev? v0 w0 rest2 ih1 ih2 =>
    intro x hx
    simp only [scrollPlan]
    by_cases hm : w0.start - v0.stop < loaderThreshold
    · rw [if_pos hm]
      rcases List.mem_cons.mp hx with rfl | hx
      · exact ⟨.merged (addLoaderFlag prev? w0.start) x w0,
          List.mem_append_right _ (by simp), by simp [planCarries]⟩
      · rcases List.mem_cons.mp hx with rfl | hx
        · exact ⟨.merged (addLoaderFlag prev? x.start) v0 x,
            List.mem_append_right _ (by simp), by simp [planCarries]⟩
        · obtain ⟨e, he, hc⟩ := ih1 x hx
          exact ⟨e, List.mem_append_right _ (List.mem_cons_of_mem _ he), hc⟩
    · rw [if_neg hm]
      rcases List.mem_cons.mp hx with rfl | hx
      · exact ⟨.single (addLoaderFlag prev? x.start) (nextFarFlag x (w0 :: rest2)) x,
          List.mem_append_right _ (by simp), by simp [planCarries]⟩
      · obtain ⟨e, he, hc⟩ := ih2 x hx
        exact ⟨e, List.mem_append_right _ (List.mem_cons_of_mem _ he), hc⟩

/-- C1 (amended): for any two consecutive verses whose gap is at least
`loaderThreshold`, the compositor emits the MELODI filler spanning exactly
`[prev.end + 0.3, next.start - 0.3]`, displays each of the two verses in
some event, and never merges the two into one Event; two consecutive verses
with a gap below the threshold are merged into exactly one Event when the
scan's index reaches the first of them (in particular the first two verses)
— but a verse consumed as the lower (karaoke) half of a merged pair is not
itself merged with its successor. -/
theorem gap_filler_and_merge_spec :
    (∀ (l a b : List Verse) (p v : Verse),
        l = a ++ p :: v :: b → loaderThreshold ≤ v.start - p.stop →
        EventPlan.filler p v ∈ scrollPlan none l
        ∧ melodiDialogue p v ∈ write_scrolling_lyrics_events l
        ∧ (melodiDialogue p v).start = p.stop + 3/10
        ∧ (melodiDialogue p v).stop = v.start - 3/10
        ∧ (∀ L : Bool, EventPlan.merged L p v ∉ scrollPlan none l)
        ∧ (∃ e ∈ scrollPlan none l, planCarries e p = true)
        ∧ (∃ e ∈ scrollPlan none l, planCarries e v = true))
    ∧ (∀ (v w : Verse) (rest : List Verse),
        w.start - v.stop < loaderThreshold →
        scrollPlan none (v :: w :: rest) =
          .merged true v w :: scrollPlan (some w) rest) := by
  constructor
  · intro l a b p v hl hgap
    have hmem := filler_of_gap none l p v (Or.inl ⟨a, b, hl⟩) hgap
    refine ⟨hmem, ?_, rfl, rfl, ?_, ?_, ?_⟩
    · simpa [write_scrolling_lyrics_events, renderPlan] using
        List.mem_map_of_mem renderPlan hmem
    · intro L hmm
      exact absurd (merged_gap_lt none l L p v hmm) (not_lt.mpr hgap)
    · exact verse_emitted none l p (by rw [hl]; simp)
    · exact verse_emitted none l v (by rw [hl]; simp)
  · intro v w rest h
    simp [scrollPlan, fillerEvents, addLoaderFlag, if_pos h]

unseal Rat.sub Rat.add Rat.mul Rat.inv in
/-- C1 counterexample: with verses `[0,1]`, `[2,3]`, `[4,5]` (all gaps
below the threshold) the second and third verses are consecutive with gap
`1 < 5` yet appear in no common merged Event: the first two were merged and
the third is emitted alone. -/
theorem small_gap_pair_not_merged_cex :
    ((⟨4, 5, []⟩ : Verse).start - (⟨2, 3, []⟩ : Verse).stop < loaderThreshold)
    ∧ scrollPlan none [⟨0, 1, []⟩, ⟨2, 3, []⟩, ⟨4, 5, []⟩] =
        [.merged true ⟨0, 1, []⟩ ⟨2, 3, []⟩, .single false true ⟨4, 5, []⟩]
    ∧ (∀ e ∈ scrollPlan none [⟨0, 1, []⟩, ⟨2, 3, []⟩, ⟨4, 5, []⟩],
        e ≠ EventPlan.merged true ⟨2, 3, []⟩ ⟨4, 5, []⟩ ∧
        e ≠ EventPlan.merged false ⟨2, 3, []⟩ ⟨4, 5, []⟩) := by decide

unseal Rat.sub Rat.add Rat.mul Rat.inv in
theorem gap_filler_and_merge_spec_witness :
    ([(⟨0, 1, []⟩ : Verse), ⟨10, 11, []⟩] = [] ++ (⟨0, 1, []⟩ : Verse) :: ⟨10, 11, []⟩ :: []
      ∧ loaderThreshold ≤ (⟨10, 11, []⟩ : Verse).start - (⟨0, 1, []⟩ : Verse).stop)
    ∧ EventPlan.filler ⟨0, 1, []⟩ ⟨10, 11, []⟩ ∈
        scrollPlan none [⟨0, 1, []⟩, ⟨10, 11, []⟩]
    ∧ melodiDialogue ⟨0, 1, []⟩ ⟨10, 11, []⟩ ∈
        write_scrolling_lyrics_events [⟨0, 1, []⟩, ⟨10, 11, []⟩] :=
  ⟨⟨rfl, by decide⟩,
    ((gap_filler_and_merge_spec.1 [⟨0, 1, []⟩, ⟨10, 11, []⟩] [] []
        ⟨0, 1, []⟩ ⟨10, 11, []⟩ rfl (by decide)).1),
    ((gap_filler_and_merge_spec.1 [⟨0, 1, []⟩, ⟨10, 11, []⟩] [] []
        ⟨0, 1, []⟩ ⟨10, 11, []⟩ rfl (by decide)).2.1)⟩

/-- C3: a loader (the four-arrow run with fixed `\kf200`, i.e. 2.0s) is
prepended exactly when the event's verse index is 0 (first emitted event) or
the gap measured from the previous verse's end reaches the threshold (taken
to the merged pair's karaoke-verse start in the merged branch, and to the
verse's own start in the single branch); whenever a loader is added the
displayed start is `max 0 (verseStart - 2)`, while the recursion continues
on the unmodified verse records, so the next iteration's gap computation
uses the verse's original timestamps. -/
theorem loader_decision_spec :
    (∀ (v : Verse) (rest : List Verse), ∃ (e : EventPlan) (t : List EventPlan),
        scrollPlan none (v :: rest) = e :: t ∧ planLoader e = true)
    ∧ (∀ (p v w : Verse) (rest : List Verse),
        w.start - v.stop < loaderThreshold →
        scrollPlan (some p) (v :: w :: rest) =
          fillerEvents (some p) v ++
            .merged (decide (loaderThreshold ≤ w.start - p.stop)) v w ::
              scrollPlan (some w) rest)
    ∧ (∀ (p v w : Verse) (rest : List Verse),
        loaderThreshold ≤ w.start - v.stop →
        scrollPlan (some p) (v :: w :: rest) =
          fillerEvents (some p) v ++
            .single (decide (loaderThreshold ≤ v.start - p.stop)) true v ::
              scrollPlan (some v) (w :: rest))
    ∧ (∀ (p v : Verse),
        scrollPlan (some p) [v] =
          fillerEvents (some p) v ++
            [.single (decide (loaderThreshold ≤ v.start - p.stop)) true v])
    ∧ (∀ (L : Bool) (v w : Verse),
        (renderPlan (.merged L v w)).start = (if L then max 0 (v.start - 2) else v.start)
        ∧ (renderPlan (.merged L v w)).lines.head? =
            some ((if L then [Seg.loader 200] else []) ++ v.words.map wordSeg))
    ∧ (∀ (L f : Bool) (v : Verse),
        (renderPlan (.single L f v)).start = (if L then max 0 (v.start - 2) else v.start)
        ∧ (renderPlan (.single L f v)).lines =
            [(if L then [Seg.loader 200] else []) ++ v.words.map wordSeg]) := by
  refine ⟨?_, ?_, ?_, ?_, ?_, ?_⟩
  · intro v rest
    match rest with
    | [] => exact ⟨_, _, rfl, rfl⟩
    | w :: rest2 =>
      by_cases h : w.start - v.stop < loaderThreshold
      · exact ⟨.merged (addLoaderFlag none w.start) v w, scrollPlan (some w) rest2,
          by simp [scrollPlan, fillerEvents, if_pos h], rfl⟩
      · exact ⟨.single (addLoaderFlag none v.start) (nextFarFlag v (w :: rest2)) v,
          scrollPlan (some v) (w :: rest2),
          by simp [scrollPlan, fillerEvents, if_neg h], rfl⟩
  · intro p v w rest h
    simp [scrollPlan, addLoaderFlag, if_pos h]
  · intro p v w rest h
    simp [scrollPlan, addLoaderFlag, nextFarFlag, if_neg (not_lt.mpr h), h]
  · intro p v
    simp [scrollPlan, addLoaderFlag, nextFarFlag]
  · intro L v w
    cases L <;> simp [renderPlan, combinedDialogue]
  · intro L f v
    cases L <;> simp [renderPlan, singleDialogue]

unseal Rat.sub Rat.add Rat.mul Rat.inv in
theorem loader_decision_spec_witness :
    ((⟨12, 13, []⟩ : Verse).start - (⟨10, 11, []⟩ : Verse).stop < loaderThreshold)
    ∧ scrollPlan (some ⟨0, 1, []⟩) [⟨10, 11, []⟩, ⟨12, 13, []⟩] =
        fillerEvents (some ⟨0, 1, []⟩) ⟨10, 11, []⟩ ++
          .merged (decide (loaderThreshold ≤ (⟨12, 13, []⟩ : Verse).start - (⟨0, 1, []⟩ : Verse).stop))
              ⟨10, 11, []⟩ ⟨12, 13, []⟩ ::
            scrollPlan (some ⟨12, 13, []⟩) [] :=
  ⟨by decide,
    loader_decision_spec.2.1 ⟨0, 1, []⟩ ⟨10, 11, []⟩ ⟨12, 13, []⟩ [] (by decide)⟩

unseal Rat.sub Rat.add Rat.mul Rat.inv in
/-- C2 (amended): every word's highlight-duration tag is
`int((word.end - word.start) * 100)` — Python truncation toward zero, which
equals the floor for the non-negative durations of well-formed words — with
no redistribution and no minimum clamp: the tag sequence of an emitted line
is exactly the per-word values in order (the loader run is a separate,
non-word run); the verse timed `{0.0,0.5}, {0.5,1.3}` yields tags 50, 80. -/
theorem kf_tag_truncation_spec :
    (∀ w : Word, w.start ≤ w.stop →
        wordSeg w = .word ⌊(w.stop - w.start) * 100⌋ (wordText w))
    ∧ (∀ (L f : Bool) (v : Verse),
        (renderPlan (.single L f v)).lines.map lineKfTags =
          [v.words.map fun x => pytrunc ((x.stop - x.start) * 100)])
    ∧ (∀ (L : Bool) (v w : Verse),
        (renderPlan (.merged L v w)).lines.map lineKfTags =
          [v.words.map fun x => pytrunc ((x.stop - x.start) * 100),
            w.words.map fun x => pytrunc ((x.stop - x.start) * 100)])
    ∧ (∀ (words : List Word) (add_loader : Bool),
        lineKfTags (format_chunk_text words add_loader) =
          words.map fun x => pytrunc ((x.stop - x.start) * 100))
    ∧ (write_scrolling_lyrics_events
          [⟨0, 13/10, [⟨"aa", none, 0, 1/2⟩, ⟨"bb", none, 1/2, 13/10⟩]⟩]).map
        (fun d => d.lines.map lineKfTags) = [[[50, 80]]] := by
  have htags : ∀ l : List Word, lineKfTags (l.map wordSeg) =
      l.map fun x => pytrunc ((x.stop - x.start) * 100) := by
    intro l
    induction l with
    | nil => rfl
    | cons x xs ih => simp [lineKfTags, wordSeg] at ih ⊢; exact ih
  have hloader : ∀ (b : Bool) (l : List Word),
      lineKfTags ((if b then [Seg.loader 200] else []) ++ l.map wordSeg) =
        lineKfTags (l.map wordSeg) := by
    intro b l
    cases b <;> simp [lineKfTags]
  refine ⟨?_, ?_, ?_, ?_, ?_⟩
  · intro w h
    have h0 : (0 : ℚ) ≤ (w.stop - w.start) * 100 :=
      mul_nonneg (sub_nonneg.mpr h) (by norm_num)
    simp only [wordSeg, pytrunc]
    rw [if_pos h0]
  · intro L f v
    simp [renderPlan, singleDialogue, hloader, htags]
  · intro L v w
    simp [renderPlan, combinedDialogue, hloader, htags]
  · intro words add_loader
    simp [format_chunk_text, hloader, htags]
  · decide

unseal Rat.sub Rat.add Rat.mul Rat.inv in
/-- C2 counterexample: a word of duration 0.999s gets the tag
`int(0.999 * 100) = 99`, while `round(0.999 * 100) = 100`: the tag is the
truncation, not the rounding, of the duration in centiseconds. -/
theorem kf_tag_round_cex :
    wordSeg ⟨"la", none, 0, 999/1000⟩ = .word 99 "la"
    ∧ (write_scrolling_lyrics_events [⟨0, 1, [⟨"la", none, 0, 999/1000⟩]⟩]).map
        (fun d => d.lines.map lineKfTags) = [[[99]]]
    ∧ pyround (((999 : ℚ)/1000 - 0) * 100) = 100
    ∧ (99 : ℤ) ≠ 100 := by decide

unseal Rat.sub Rat.add Rat.mul Rat.inv in
theorem kf_tag_truncation_spec_witness :
    ((⟨"la", none, 0, 999/1000⟩ : Word).start ≤ (⟨"la", none, 0, 999/1000⟩ : Word).stop)
    ∧ wordSeg ⟨"la", none, 0, 999/1000⟩ =
        .word ⌊(((⟨"la", none, 0, 999/1000⟩ : Word).stop -
            (⟨"la", none, 0, 999/1000⟩ : Word).start) * 100)⌋ "la" :=
  ⟨by decide, kf_tag_truncation_spec.1 ⟨"la", none, 0, 999/1000⟩ (by decide)⟩

theorem generateLateChecks_success {env : RenderEnv} {cd : Option String} {out : String}
    (h : (generateLateChecks env cd out).output.isSome) :
    env.logoValid = true ∧ env.ffmpegSucceeds = true ∧
      generateLateChecks env cd out = ⟨some out, true⟩ := by
  unfold generateLateChecks at h ⊢
  split_ifs at h ⊢ with hc hl hf
  · simp at h
  · simp at h
  · exact ⟨by simpa using hl, hf, rfl⟩
  · simp at h

/-- C7 (amended): when a referenced media file fails validation or the audio
duration cannot be extracted, `generate_karaoke_video` aborts that render
before the encoder is ever invoked and signals the failure by returning
`None` — no exception is raised — and an output is reported only when every
validation and the encoder run succeeded; however `process_karaoke_video`
discards that return value and still returns the planned output path. -/
theorem render_abort_spec :
    (∀ (env : RenderEnv) (ve br cv : Option String) (out : String),
        env.audioValid = false ∨ env.assValid = false ∨ env.audioDuration = none →
        generate_karaoke_video env ve br cv out = ⟨none, false⟩)
    ∧ (∀ (env : RenderEnv) (ve br cv : Option String) (out : String),
        (generate_karaoke_video env ve br cv out).output.isSome →
        env.audioValid = true ∧ env.assValid = true ∧ env.audioDuration.isSome = true
          ∧ env.logoValid = true ∧ env.ffmpegSucceeds = true
          ∧ generate_karaoke_video env ve br cv out = ⟨some out, true⟩)
    ∧ (∀ (env : RenderEnv) (metadataOk : Bool) (ep : Option String) (out : String),
        metadataOk = true →
        process_karaoke_video env metadataOk ep out = Except.ok out) := by
  refine ⟨?_, ?_, ?_⟩
  · intro env ve br cv out h
    unfold generate_karaoke_video
    rcases h with h | h | h
    · simp [h]
    · by_cases ha : env.audioValid = false
      · simp [ha]
      · simp [ha, h]
    · by_cases ha : env.audioValid = false
      · simp [ha]
      · by_cases hb : env.assValid = false
        · simp [ha, hb]
        · simp [ha, hb, h]
  · intro env ve br cv out hs
    unfold generate_karaoke_video at hs ⊢
    by_cases h1 : env.audioValid = false
    · rw [if_pos h1] at hs
      exact absurd hs (by simp)
    rw [if_neg h1] at hs ⊢
    by_cases h2 : env.assValid = false
    · rw [if_pos h2] at hs
      exact absurd hs (by simp)
    rw [if_neg h2] at hs ⊢
    cases hd : env.audioDuration with
    | none =>
      simp only [hd] at hs
      exact absurd hs (by simp)
    | some dur =>
      simp only [hd] at hs ⊢
      refine ⟨by simpa using h1, by simpa using h2, by simp [hd], ?_⟩
      split_ifs at hs ⊢ with hb hv hbr hvv
      · exact absurd hs (by simp)
      · exact absurd hs (by simp)
      · obtain ⟨hl, hf, he⟩ := generateLateChecks_success hs
        exact ⟨hl, hf, he⟩
      · exact absurd hs (by simp)
      · obtain ⟨hl, hf, he⟩ := generateLateChecks_success hs
        exact ⟨hl, hf, he⟩
  · intro env metadataOk ep out h
    simp [process_karaoke_video, h]

/-- C7 counterexample: with an invalid audio file (and everything else in
order) `generate_karaoke_video` returns `None` without invoking the encoder
— it raises nothing — and `process_karaoke_video`, which discards that
result, still returns the planned output path as if the render succeeded. -/
theorem render_error_swallowed_cex :
    (⟨false, true, true, true, true, true, some 120, [], false, none, true⟩ :
        RenderEnv).audioValid = false
    ∧ generate_karaoke_video
        ⟨false, true, true, true, true, true, some 120, [], false, none, true⟩
        none none none "out.mp4" = ⟨none, false⟩
    ∧ process_karaoke_video
        ⟨false, true, true, true, true, true, some 120, [], false, none, true⟩
        true none "out.mp4" = Except.ok "out.mp4" :=
  ⟨rfl, rfl, rfl⟩

theorem render_abort_spec_witness :
    ((⟨false, true, true, true, true, true, some 120, [], false, none, true⟩ :
        RenderEnv).audioValid = false ∨
      (⟨false, true, true, true, true, true, some 120, [], false, none, true⟩ :
        RenderEnv).assValid = false ∨
      (⟨false, true, true, true, true, true, some 120, [], false, none, true⟩ :
        RenderEnv).audioDuration = none)
    ∧ generate_karaoke_video
        ⟨false, true, true, true, true, true, some 120, [], false, none, true⟩
        none none none "out.mp4" = ⟨none, false⟩ :=
  ⟨Or.inl rfl,
    render_abort_spec.1
      ⟨false, true, true, true, true, true, some 120, [], false, none, true⟩
      none none none "out.mp4" (Or.inl rfl)⟩

theorem digitChar_props (d : ℕ) (h : d < 10) :
    (digitChar d).isDigit = true ∧ charDigitVal (digitChar d) = d ∧
      digitChar d ≠ ':' ∧ digitChar d ≠ '.' ∧ digitChar d ≠ '-' ∧
      (digitChar d).isWhitespace = false := by
  interval_cases d <;> exact ⟨by decide, by decide, by decide, by decide, by decide, by decide⟩

theorem natCharsAux_mem (fuel : ℕ) :
    ∀ n, n < fuel → ∀ x ∈ natCharsAux fuel n, ∃ d, d < 10 ∧ x = digitChar d := by
  induction fuel with
  | zero => intro n hn; omega
  | succ fuel ih =>
    intro n hn x hx
    unfold natCharsAux at hx
    split_ifs at hx with h10
    · simp at hx
      exact ⟨n, h10, hx⟩
    · rcases List.mem_append.mp hx with hx | hx
      · exact ih (n / 10) (by omega) x hx
      · simp at hx
        exact ⟨n % 10, by omega, hx⟩

theorem natCharsAux_ne_nil (fuel : ℕ) :
    ∀ n, n < fuel → natCharsAux fuel n ≠ [] := by
  induction fuel with
  | zero => intro n hn; omega
  | succ fuel ih =>
    intro n hn
    unfold natCharsAux
    split_ifs with h10
    · simp
    · simp

theorem parseDigitsVal_append (l1 l2 : List Char) :
    parseDigitsVal (l1 ++ l2) =
      (l2.foldl (fun acc c => 10 * acc + charDigitVal c) (parseDigitsVal l1)) := by
  simp [parseDigitsVal, List.foldl_append]

theorem parseDigitsVal_natCharsAux (fuel : ℕ) :
    ∀ n, n < fuel → parseDigitsVal (natCharsAux fuel n) = n := by
  induction fuel with
  | zero => intro n hn; omega
  | succ fuel ih =>
    intro n hn
    unfold natCharsAux
    split_ifs with h10
    · simp [parseDigitsVal, List.foldl, (digitChar_props n h10).2.1]
    · rw [parseDigitsVal_append, ih (n / 10) (by omega)]
      simp [List.foldl, (digitChar_props (n % 10) (by omega)).2.1]
      omega

theorem natChars_mem (n : ℕ) : ∀ x ∈ natChars n, ∃ d, d < 10 ∧ x = digitChar d :=
  natCharsAux_mem (n + 1) n (by omega)

theorem natChars_ne_nil (n : ℕ) : natChars n ≠ [] :=
  natCharsAux_ne_nil (n + 1) n (by omega)

theorem parseDigitsVal_natChars (n : ℕ) : parseDigitsVal (natChars n) = n :=
  parseDigitsVal_natCharsAux (n + 1) n (by omega)

theorem natChars_all_digits (n : ℕ) : (natChars n).all Char.isDigit = true := by
  rw [List.all_eq_true]
  intro x hx
  obtain ⟨d, hd, rfl⟩ := natChars_mem n x hx
  exact (digitChar_props d hd).1

theorem natChars_length_lt10 (n : ℕ) (h : n < 10) : (natChars n).length = 1 := by
  unfold natChars natCharsAux
  rw [if_pos h]
  rfl

theorem natCharsAux_small (fuel m : ℕ) (hf : 0 < fuel) (hm : m < 10) :
    natCharsAux fuel m = [digitChar m] := by
  cases fuel with
  | zero => omega
  | succ f =>
    unfold natCharsAux
    rw [if_pos hm]

theorem natChars_length_lt100 (n : ℕ) (h1 : 10 ≤ n) (h2 : n < 100) :
    (natChars n).length = 2 := by
  unfold natChars natCharsAux
  rw [if_neg (by omega), natCharsAux_small n (n / 10) (by omega) (by omega)]
  rfl

theorem splitOnChar_cons (c x : Char) (xs : List Char) :
    splitOnChar c (x :: xs) =
      if x = c then [] :: splitOnChar c xs
      else match splitOnChar c xs with
        | [] => [[x]]
        | piece :: pieces => (x :: piece) :: pieces := rfl

theorem splitOnChar_of_no (c : Char) (l : List Char) (h : ∀ x ∈ l, x ≠ c) :
    splitOnChar c l = [l] := by
  induction l with
  | nil => rfl
  | cons x xs ih =>
    rw [splitOnChar_cons, if_neg (h x (by simp)), ih fun y hy => h y (by simp [hy])]

theorem splitOnChar_append (c : Char) (l1 l2 : List Char) (h : ∀ x ∈ l1, x ≠ c) :
    splitOnChar c (l1 ++ c :: l2) = l1 :: splitOnChar c l2 := by
  induction l1 with
  | nil =>
    simp only [List.nil_append]
    rw [splitOnChar_cons, if_pos rfl]
  | cons x xs ih =>
    rw [List.cons_append, splitOnChar_cons, if_neg (h x (by simp)),
      ih fun y hy => h y (by simp [hy])]

theorem parseNatChars_eq (l : List Char) (h1 : l ≠ []) (h2 : l.all Char.isDigit = true) :
    parseNatChars l = some (parseDigitsVal l) := by
  unfold parseNatChars
  rw [if_pos ⟨h1, h2⟩]

theorem intChars_nonneg (k : ℤ) (h : 0 ≤ k) : intChars k = natChars k.toNat := by
  unfold intChars
  rw [if_neg (by omega)]
  have hna : k.natAbs = k.toNat := by omega
  rw [hna]

theorem pad2_nonneg (k : ℤ) (h : 0 ≤ k) :
    pad2 k = natChars k.toNat ∨ pad2 k = '0' :: natChars k.toNat := by
  unfold pad2
  rw [intChars_nonneg k h]
  split_ifs <;> simp

theorem pad2_mem (k : ℤ) (h : 0 ≤ k) :
    ∀ x ∈ pad2 k, ∃ d, d < 10 ∧ x = digitChar d := by
  intro x hx
  rcases pad2_nonneg k h with hp | hp <;> rw [hp] at hx
  · exact natChars_mem _ x hx
  · rcases List.mem_cons.mp hx with rfl | hx
    · exact ⟨0, by omega, rfl⟩
    · exact natChars_mem _ x hx

theorem pad2_ne_nil (k : ℤ) (h : 0 ≤ k) : pad2 k ≠ [] := by
  rcases pad2_nonneg k h with hp | hp <;> rw [hp]
  · exact natChars_ne_nil _
  · simp

theorem pad2_all_digits (k : ℤ) (h : 0 ≤ k) : (pad2 k).all Char.isDigit = true := by
  rw [List.all_eq_true]
  intro x hx
  obtain ⟨d, hd, rfl⟩ := pad2_mem k h x hx
  exact (digitChar_props d hd).1

theorem parseDigitsVal_pad2 (k : ℤ) (h : 0 ≤ k) : parseDigitsVal (pad2 k) = k.toNat := by
  rcases pad2_nonneg k h with hp | hp <;> rw [hp]
  · exact parseDigitsVal_natChars _
  · have : parseDigitsVal ('0' :: natChars k.toNat) = parseDigitsVal (natChars k.toNat) := by
      simp [parseDigitsVal, List.foldl, charDigitVal]
    rw [this, parseDigitsVal_natChars]

theorem pad2_length (k : ℤ) (h1 : 0 ≤ k) (h2 : k < 100) : (pad2 k).length = 2 := by
  unfold pad2
  rw [intChars_nonneg k h1]
  by_cases hk : k.toNat < 10
  · rw [if_pos (by rw [natChars_length_lt10 _ hk]; omega)]
    rw [List.length_cons, natChars_length_lt10 _ hk]
  · have hl := natChars_length_lt100 k.toNat (by omega) (by omega)
    have hc : ¬ (natChars k.toNat).length < 2 := by rw [hl]; omega
    rw [if_neg hc]
    exact hl

theorem digitList_head_ne_dash (l : List Char)
    (hmem : ∀ x ∈ l, ∃ d, d < 10 ∧ x = digitChar d) : ¬ l.head? = some '-' := by
  intro h
  have hm : '-' ∈ l := by
    cases l with
    | nil => simp at h
    | cons a t =>
      simp only [List.head?_cons, Option.some_inj] at h
      simp [h]
  obtain ⟨d, hd, habs⟩ := hmem '-' hm
  exact absurd habs.symm (digitChar_props d hd).2.2.2.2.1

theorem digitList_all (l : List Char)
    (hmem : ∀ x ∈ l, ∃ d, d < 10 ∧ x = digitChar d) : l.all Char.isDigit = true := by
  rw [List.all_eq_true]
  intro x hx
  obtain ⟨d, hd, rfl⟩ := hmem x hx
  exact (digitChar_props d hd).1

theorem digitList_ne_dot (l : List Char)
    (hmem : ∀ x ∈ l, ∃ d, d < 10 ∧ x = digitChar d) : ∀ x ∈ l, x ≠ '.' := by
  intro x hx
  obtain ⟨d, hd, rfl⟩ := hmem x hx
  exact (digitChar_props d hd).2.2.2.1

theorem parseFloatChars_digits (l : List Char) (h1 : l ≠ [])
    (hmem : ∀ x ∈ l, ∃ d, d < 10 ∧ x = digitChar d) :
    parseFloatChars l = some ((parseDigitsVal l : ℕ) : ℚ) := by
  have hne := digitList_head_ne_dash l hmem
  simp only [parseFloatChars]
  rw [if_neg hne, if_neg hne, splitOnChar_of_no '.' l (digitList_ne_dot l hmem)]
  simp [parseNatChars_eq l h1 (digitList_all l hmem)]

theorem parseFloatChars_intChars (k : ℤ) (h : 0 ≤ k) :
    parseFloatChars (intChars k) = some (k : ℚ) := by
  rw [intChars_nonneg k h,
    parseFloatChars_digits _ (natChars_ne_nil _) (natChars_mem _),
    parseDigitsVal_natChars]
  exact_mod_cast congrArg some (congrArg (fun z : ℤ => (z : ℚ)) (Int.toNat_of_nonneg h))

theorem parseFloatChars_pad2 (k : ℤ) (h : 0 ≤ k) :
    parseFloatChars (pad2 k) = some (k : ℚ) := by
  rw [parseFloatChars_digits (pad2 k) (pad2_ne_nil k h) (pad2_mem k h),
    parseDigitsVal_pad2 k h]
  exact_mod_cast congrArg some (congrArg (fun z : ℤ => (z : ℚ)) (Int.toNat_of_nonneg h))

theorem parseFloatChars_frac (sI cI : ℤ) (hs : 0 ≤ sI) (hc : 0 ≤ cI) (hc2 : cI < 100) :
    parseFloatChars (pad2 sI ++ '.' :: pad2 cI) = some ((sI : ℚ) + (cI : ℚ) / 100) := by
  obtain ⟨a, t, hat⟩ := List.exists_cons_of_ne_nil (pad2_ne_nil sI hs)
  have hadig : ∃ d, d < 10 ∧ a = digitChar d := pad2_mem sI hs a (by rw [hat]; simp)
  have hne : ¬ (pad2 sI ++ '.' :: pad2 cI).head? = some '-' := by
    rw [hat]
    intro h
    simp only [List.cons_append, List.head?_cons, Option.some_inj] at h
    obtain ⟨d, hd, ha⟩ := hadig
    rw [h] at ha
    exact absurd ha.symm (digitChar_props d hd).2.2.2.2.1
  simp only [parseFloatChars]
  rw [if_neg hne, if_neg hne,
    splitOnChar_append '.' (pad2 sI) (pad2 cI) (digitList_ne_dot _ (pad2_mem sI hs)),
    splitOnChar_of_no '.' (pad2 cI) (digitList_ne_dot _ (pad2_mem cI hc))]
  simp only [parseNatChars_eq _ (pad2_ne_nil sI hs) (pad2_all_digits sI hs),
    parseNatChars_eq _ (pad2_ne_nil cI hc) (pad2_all_digits cI hc),
    parseDigitsVal_pad2 sI hs, parseDigitsVal_pad2 cI hc, pad2_length cI hc hc2]
  have e1 : ((sI.toNat : ℕ) : ℚ) = (sI : ℚ) := by exact_mod_cast Int.toNat_of_nonneg hs
  have e2 : ((cI.toNat : ℕ) : ℚ) = (cI : ℚ) := by exact_mod_cast Int.toNat_of_nonneg hc
  norm_num [e1, e2]

theorem dropWhile_eq_self_of (p : Char → Bool) (l : List Char)
    (h : ∀ x ∈ l, p x = false) : l.dropWhile p = l := by
  cases l with
  | nil => rfl
  | cons a t =>
    rw [List.dropWhile_cons, h a (by simp)]
    simp

theorem pyStrip_eq_self (l : List Char) (h : ∀ x ∈ l, x.isWhitespace = false) :
    pyStrip l = l := by
  unfold pyStrip
  rw [dropWhile_eq_self_of _ l h,
    dropWhile_eq_self_of _ l.reverse (fun x hx => h x (List.mem_reverse.mp hx)),
    List.reverse_reverse]

theorem timestampChars_not_ws (H M S C : ℤ) (hH : 0 ≤ H) (hM : 0 ≤ M) (hS : 0 ≤ S)
    (hC : 0 ≤ C) :
    ∀ x ∈ intChars H ++ ':' :: (pad2 M ++ ':' :: (pad2 S ++ '.' :: pad2 C)),
      x.isWhitespace = false := by
  intro x hx
  simp only [List.mem_append, List.mem_cons] at hx
  have hdig : (∃ d, d < 10 ∧ x = digitChar d) ∨ x = ':' ∨ x = '.' := by
    rw [intChars_nonneg H hH] at hx
    rcases hx with hx | rfl | hx | rfl | hx | rfl | hx
    · exact Or.inl (natChars_mem _ x hx)
    · exact Or.inr (Or.inl rfl)
    · exact Or.inl (pad2_mem M hM x hx)
    · exact Or.inr (Or.inl rfl)
    · exact Or.inl (pad2_mem S hS x hx)
    · exact Or.inr (Or.inr rfl)
    · exact Or.inl (pad2_mem C hC x hx)
  rcases hdig with ⟨d, hd, rfl⟩ | rfl | rfl
  · exact (digitChar_props d hd).2.2.2.2.2
  · decide
  · decide

theorem digitList_ne_colon (l : List Char)
    (hmem : ∀ x ∈ l, ∃ d, d < 10 ∧ x = digitChar d) : ∀ x ∈ l, x ≠ ':' := by
  intro x hx
  obtain ⟨d, hd, rfl⟩ := hmem x hx
  exact (digitChar_props d hd).2.2.1

theorem parse_timestamp_fields (H M S C : ℤ) (hH : 0 ≤ H) (hM : 0 ≤ M) (hS : 0 ≤ S)
    (hC : 0 ≤ C) (hC2 : C < 100) :
    parse_ass_time ⟨intChars H ++ ':' :: pad2 M ++ ':' :: pad2 S ++ '.' :: pad2 C⟩ =
      (H : ℚ) * 3600 + (M : ℚ) * 60 + ((S : ℚ) + (C : ℚ) / 100) := by
  have hassoc : intChars H ++ ':' :: pad2 M ++ ':' :: pad2 S ++ '.' :: pad2 C =
      intChars H ++ ':' :: (pad2 M ++ ':' :: (pad2 S ++ '.' :: pad2 C)) := by
    simp [List.cons_append, List.append_assoc]
  have hdata : (String.mk (intChars H ++ ':' :: pad2 M ++ ':' :: pad2 S ++ '.' :: pad2 C)).data
      = intChars H ++ ':' :: pad2 M ++ ':' :: pad2 S ++ '.' :: pad2 C := rfl
  unfold parse_ass_time parse_ass_time_core
  rw [hdata, hassoc, pyStrip_eq_self _ (timestampChars_not_ws H M S C hH hM hS hC)]
  have hsplit : splitOnChar ':'
      (intChars H ++ ':' :: (pad2 M ++ ':' :: (pad2 S ++ '.' :: pad2 C))) =
      [intChars H, pad2 M, pad2 S ++ '.' :: pad2 C] := by
    rw [splitOnChar_append ':' (intChars H) _
        (by rw [intChars_nonneg H hH]; exact digitList_ne_colon _ (natChars_mem _)),
      splitOnChar_append ':' (pad2 M) _ (digitList_ne_colon _ (pad2_mem M hM))]
    rw [splitOnChar_of_no ':' _ ?hno]
    case hno =>
      intro x hx
      rcases List.mem_append.mp hx with hx | hx
      · exact digitList_ne_colon _ (pad2_mem S hS) x hx
      · rcases List.mem_cons.mp hx with rfl | hx
        · decide
        · exact digitList_ne_colon _ (pad2_mem C hC) x hx
  rw [hsplit]
  simp only [parseFloatChars_intChars H hH, parseFloatChars_pad2 M hM,
    parseFloatChars_frac S C hS hC hC2, Option.getD_some]

theorem pytrunc_intCast (n : ℤ) : pytrunc (n : ℚ) = n := by
  unfold pytrunc
  split_ifs <;> simp

theorem pytrunc_nonneg (q : ℚ) (h : 0 ≤ q) : pytrunc q = ⌊q⌋ := by
  unfold pytrunc
  rw [if_pos h]

theorem pymod_nonneg (a b : ℚ) (hb : 0 < b) : 0 ≤ pymod a b := by
  unfold pymod
  have h1 : b * ((⌊a / b⌋ : ℤ) : ℚ) ≤ b * (a / b) :=
    mul_le_mul_of_nonneg_left (Int.floor_le _) hb.le
  have h2 : b * (a / b) = a := by
    field_simp
  linarith

theorem pymod_lt (a b : ℚ) (hb : 0 < b) : pymod a b < b := by
  unfold pymod
  have h1 : a / b < ((⌊a / b⌋ : ℤ) : ℚ) + 1 := Int.lt_floor_add_one _
  have h2 : a < (((⌊a / b⌋ : ℤ) : ℚ) + 1) * b := (div_lt_iff₀ hb).mp h1
  nlinarith

theorem format_time_eq (s : ℚ) (hs : 0 ≤ s) :
    parse_ass_time (format_time s) = ((⌊100 * s⌋ : ℤ) : ℚ) / 100 := by
  have hm3600 : pymod s 3600 / 60 = s / 60 - ((60 * ⌊s / 3600⌋ : ℤ) : ℚ) := by
    unfold pymod
    push_cast
    ring
  have hm60 : pymod s 60 = s - ((60 * ⌊s / 60⌋ : ℤ) : ℚ) := by
    unfold pymod
    push_cast
    ring
  have hm1 : pymod s 1 * 100 = 100 * s - ((100 * ⌊s⌋ : ℤ) : ℚ) := by
    unfold pymod
    rw [div_one]
    push_cast
    ring
  have e1 : pytrunc (pyfloordiv s 3600) = ⌊s / 3600⌋ := by
    unfold pyfloordiv
    rw [pytrunc_intCast]
  have e2 : pytrunc (pyfloordiv (pymod s 3600) 60) = ⌊s / 60⌋ - 60 * ⌊s / 3600⌋ := by
    unfold pyfloordiv
    rw [pytrunc_intCast, hm3600, Int.floor_sub_int]
  have e3 : pytrunc (pymod s 60) = ⌊s⌋ - 60 * ⌊s / 60⌋ := by
    rw [pytrunc_nonneg _ (pymod_nonneg s 60 (by norm_num)), hm60, Int.floor_sub_int]
  have e4 : pytrunc (pymod s 1 * 100) = ⌊100 * s⌋ - 100 * ⌊s⌋ := by
    rw [pytrunc_nonneg _ (mul_nonneg (pymod_nonneg s 1 (by norm_num)) (by norm_num)),
      hm1, Int.floor_sub_int]
  have hH : 0 ≤ ⌊s / 3600⌋ := Int.floor_nonneg.mpr (by positivity)
  have hM : 0 ≤ ⌊s / 60⌋ - 60 * ⌊s / 3600⌋ := by
    rw [← e2]
    unfold pyfloordiv
    rw [pytrunc_intCast]
    exact Int.floor_nonneg.mpr (div_nonneg (pymod_nonneg s 3600 (by norm_num)) (by norm_num))
  have hS : 0 ≤ ⌊s⌋ - 60 * ⌊s / 60⌋ := by
    rw [← e3, pytrunc_nonneg _ (pymod_nonneg s 60 (by norm_num))]
    exact Int.floor_nonneg.mpr (pymod_nonneg s 60 (by norm_num))
  have hC : 0 ≤ ⌊100 * s⌋ - 100 * ⌊s⌋ := by
    rw [← e4, pytrunc_nonneg _ (mul_nonneg (pymod_nonneg s 1 (by norm_num)) (by norm_num))]
    exact Int.floor_nonneg.mpr (mul_nonneg (pymod_nonneg s 1 (by norm_num)) (by norm_num))
  have hC2 : ⌊100 * s⌋ - 100 * ⌊s⌋ < 100 := by
    rw [← e4, pytrunc_nonneg _ (mul_nonneg (pymod_nonneg s 1 (by norm_num)) (by norm_num))]
    have hlt : pymod s 1 * 100 < 100 := by
      nlinarith [pymod_lt s 1 (by norm_num : (0:ℚ) < 1)]
    exact Int.floor_lt.mpr (by exact_mod_cast hlt)
  simp only [format_time]
  rw [e1, e2, e3, e4, parse_timestamp_fields _ _ _ _ hH hM hS hC hC2]
  push_cast
  field_simp
  ring

/-- C6: converting any non-negative number of seconds to the `H:MM:SS.CC`
timestamp text with `format_time` and parsing it back with `parse_ass_time`
reproduces the value to within 0.01 seconds. -/
theorem time_codec_roundtrip (s : ℚ) (hs : 0 ≤ s) :
    |parse_ass_time (format_time s) - s| ≤ 1 / 100 := by
  rw [format_time_eq s hs]
  have h1 : ((⌊100 * s⌋ : ℤ) : ℚ) ≤ 100 * s := Int.floor_le _
  have h2 : 100 * s < ((⌊100 * s⌋ : ℤ) : ℚ) + 1 := Int.lt_floor_add_one _
  rw [abs_le]
  constructor <;> linarith

unseal Rat.sub Rat.add Rat.mul Rat.inv in
theorem time_codec_roundtrip_witness :
    (0 : ℚ) ≤ 5063 / 20 ∧
      |parse_ass_time (format_time (5063 / 20)) - 5063 / 20| ≤ 1 / 100 :=
  ⟨by decide, time_codec_roundtrip (5063 / 20) (by decide)⟩

/-- C8: both `parse_ass_time` implementations are total: whenever the
fallible body (split and numeric conversion) fails — wrong number of parts
or a conversion error — the except handler returns `0.0` instead of
propagating; when the body succeeds its value is returned unchanged. -/
theorem lenient_time_parse_spec :
    (∀ t : String, parse_ass_time_core t = none → parse_ass_time t = 0)
    ∧ (∀ (t : String) (q : ℚ), parse_ass_time_core t = some q → parse_ass_time t = q)
    ∧ (∀ t : String, parse_ass_time_editor_core t = none → parse_ass_time_editor t = 0)
    ∧ (∀ (t : String) (q : ℚ),
        parse_ass_time_editor_core t = some q → parse_ass_time_editor t = q)
    ∧ parse_ass_time "garbage" = 0
    ∧ parse_ass_time "0:aa:05.0" = 0
    ∧ parse_ass_time "1:2" = 0
    ∧ parse_ass_time_editor "0.5:00:10" = 0 := by
  refine ⟨?_, ?_, ?_, ?_, by decide, by decide, by decide, by decide⟩
  · intro t h
    simp [parse_ass_time, h]
  · intro t q h
    simp [parse_ass_time, h]
  · intro t h
    simp [parse_ass_time_editor, h]
  · intro t q h
    simp [parse_ass_time_editor, h]

theorem lenient_time_parse_spec_witness :
    parse_ass_time_core "garbage" = none ∧ parse_ass_time "garbage" = 0 :=
  ⟨rfl, lenient_time_parse_spec.1 "garbage" rfl⟩
